import Mathlib

/-!
Verification of the ical-planner day-schedule editor (src/ical.py).

This file gives a shallow embedding of the schedule-constraint core of the
program — interval construction, overlap queries, collision-free placement,
grid snapping, smart-scale resizing, group move, locked-interval rejection
and the bounded undo/redo history — and proves (or refutes) the frozen
claims about it.

Conventions of the embedding:
* Python ints become Lean `Int`.  `//` and `%` on Python ints are floor
  division / nonnegative remainder; for positive divisors these coincide
  with Lean's `/` and `%` on `Int`, which is how they are written here.
* `round` on a Python float `m / step` (with integer `m`, `step`, and the
  magnitudes occurring in this program) is exact rational rounding with
  ties to the even integer (banker's rounding); it is embedded as
  `pyRoundDiv`, which computes that rounding with integer arithmetic.
* Bounded `while` loops (`for _ in range(n)`, `while attempts < 1000`)
  become structural recursion on a fuel argument equal to the bound.
* Qt widget state that the claims depend on is carried explicitly:
  `EventWidget` objects become `Block` records tagged with an identity,
  the day view's `event_widgets` list becomes a `List Block`, and the
  main window's history fields become a `DayState` record.
-/

namespace ICal

/-- A day has 1440 minutes; the Python source writes this as `24 * 60`. -/
def dayMinutes : Int := 24 * 60

/-! ## Intervals and overlap

`DayView.overlaps_range` (src/ical.py:1047) walks `event_widgets` and
reports a conflict when `max(start_min, ev.start_min) <
min(end_min, ev.end_min)` — half-open interval intersection.  For uses
whose exclusion set matters we keep identities; for uses on plain ranges
we work with `(start, end)` pairs. -/

/-- An interval as a plain `(start_minute, end_minute)` pair. -/
abbrev Iv := Int × Int

/-- `DayView.overlaps_range` restricted to the widgets that survive the
`exclude` / `exclude_set` filtering: true iff the half-open range
`[start_min, end_min)` intersects some listed interval. -/
def overlaps_range (events : List Iv) (start_min end_min : Int) : Bool :=
  events.any (fun ev => max start_min ev.1 < min end_min ev.2)

/-- Two-interval half-open overlap test, the pairwise form used by the
spec's store invariant. -/
def ivOverlap (a b : Iv) : Bool :=
  max a.1 b.1 < min a.2 b.2

/-! ## C9: block construction (`EventWidget.__init__`, src/ical.py:1593)

```python
self.start_min = max(0, min(start_min, 24 * 60 - 1))
self.end_min = max(self.start_min + 1, min(end_min, 24 * 60))
```
-/

/-- The `(start_min, end_min)` stored by `EventWidget.__init__` for raw
constructor arguments. -/
def eventWidgetInit (start_min end_min : Int) : Int × Int :=
  let s := max 0 (min start_min (dayMinutes - 1))
  let e := max (s + 1) (min end_min dayMinutes)
  (s, e)

/-! ## C7: grid snapping (`DayView.snap_step` / `DayView.snap_minute`,
src/ical.py:835)

```python
def snap_step(self) -> int:
    return self.time_size_minutes if self.snap_enabled else 1

def snap_minute(self, minute: int) -> int:
    step = self.snap_step()
    if step <= 1:
        return max(0, min(24 * 60, int(minute)))
    snapped = int(round(minute / step) * step)
    return max(0, min(24 * 60, snapped))
```
-/

/-- Exact embedding of Python `round(num / den)` for integers with
`den > 0`: the nearest integer to `num / den`, ties to the even integer
(Python 3 `round` is banker's rounding; for the integer magnitudes in
this program the float division `num / den` is correctly rounded and a
tie arises exactly when the rational `num / den` is a half-integer, so
the integer computation below is exact). -/
def pyRoundDiv (num den : Int) : Int :=
  let q := num / den
  let r := num % den
  if 2 * r < den then q
  else if den < 2 * r then q + 1
  else if q % 2 = 0 then q else q + 1

/-- `DayView.snap_step`. -/
def snap_step (snapEnabled : Bool) (timeSize : Int) : Int :=
  if snapEnabled then timeSize else 1

/-- `DayView.snap_minute`. -/
def snap_minute (snapEnabled : Bool) (timeSize : Int) (minute : Int) : Int :=
  let step := snap_step snapEnabled timeSize
  if step ≤ 1 then max 0 (min dayMinutes minute)
  else max 0 (min dayMinutes (pyRoundDiv minute step * step))

/-- The claim's (and spec §4.3's) reading of `gridSnap`: rounds to the
nearest multiple of `step` with ties away from zero, clamped to
`[0, 1440]`.  Written from the spec's words, to be compared with
`snap_minute`. -/
def gridSnapAwaySpec (snapEnabled : Bool) (timeSize : Int) (minute : Int) : Int :=
  let step := snap_step snapEnabled timeSize
  if step ≤ 1 then max 0 (min dayMinutes minute)
  else
    let q := minute / step
    let r := minute % step
    let rounded := if 2 * r < step then q
                   else if step < 2 * r then q + 1
                   else if 0 ≤ q then q + 1 else q
    max 0 (min dayMinutes (rounded * step))

/-! ## C2: placement search (`DayView.clamp_start_to_available`,
src/ical.py:983)

The Python loop runs `for _ in range(len(self.event_widgets) + 1)`; each
iteration finds the first conflicting, non-excluded widget, and moves the
candidate according to `direction` (`> 0` forward, `< 0` backward, `0`
nearest), re-clamping into `[0, 1440 - duration]` at the bottom of the
loop.  In the nearest case Python builds a list of
`(abs(cand - start), cand)` tuples, sorts it, and takes the head — the
lexicographic minimum, embedded here as a `foldl`. -/

/-- A stored widget as seen by the placement engine: an identity (for the
`exclude` / `exclude_set` arguments, which compare object identity) plus
its minute range. -/
structure PBlock where
  id : Nat
  start_min : Int
  end_min : Int
deriving DecidableEq

/-- The first widget that is not excluded and conflicts with
`[start, start + duration)`, in list order — the inner `for ev in
self.event_widgets` loop of `clamp_start_to_available`. -/
def firstConflict (events : List PBlock) (excluded : List Nat)
    (start duration : Int) : Option PBlock :=
  events.find? (fun ev => !(excluded.contains ev.id) &&
    decide (max start ev.start_min < min (start + duration) ev.end_min))

/-- Clamp a candidate start into `[0, 1440 - duration]`, the clamp the
Python code applies before and at the bottom of each loop iteration. -/
def clampDay (duration v : Int) : Int :=
  max 0 (min v (dayMinutes - duration))

/-- The bounded search loop of `clamp_start_to_available`; `fuel` is the
remaining iteration count of `for _ in range(max_iters)`. -/
def clampLoop (events : List PBlock) (excluded : List Nat)
    (duration direction : Int) : Nat → Int → Option Int
  | 0, _ => none
  | fuel + 1, start =>
    match firstConflict events excluded start duration with
    | none => some start
    | some conflict =>
      if 0 < direction then
        clampLoop events excluded duration direction fuel
          (clampDay duration conflict.end_min)
      else if direction < 0 then
        clampLoop events excluded duration direction fuel
          (clampDay duration (conflict.start_min - duration))
      else
        let down := conflict.end_min
        let up := conflict.start_min - duration
        let candidates : List (Int × Int) :=
          (if 0 ≤ down ∧ down ≤ dayMinutes - duration
           then [(|down - start|, down)] else []) ++
          (if 0 ≤ up ∧ up ≤ dayMinutes - duration
           then [(|up - start|, up)] else [])
        match candidates with
        | [] => none
        | c :: rest =>
          -- `candidates.sort(); start = candidates[0][1]`: the head of the
          -- sorted tuple list is its lexicographic minimum.
          let best := rest.foldl
            (fun b x => if x.1 < b.1 ∨ (x.1 = b.1 ∧ x.2 < b.2) then x else b) c
          clampLoop events excluded duration direction fuel
            (clampDay duration best.2)

/-- `DayView.clamp_start_to_available`. -/
def clamp_start_to_available (events : List PBlock) (excluded : List Nat)
    (start duration direction : Int) : Option Int :=
  let duration := max 1 duration
  clampLoop events excluded duration direction (events.length + 1)
    (clampDay duration start)

/-- The amended claim's description of one search step, written from the
amended spec words: find the first conflict; forward moves to the
conflict's `end_minute`, backward to `start_minute - duration`; nearest
computes both candidates, keeps those inside `[0, 1440 - duration]`
(overlap is not re-checked here), and picks the one closer to the current
candidate, ties favoring the backward (smaller) one; the chosen candidate
is clamped into `[0, 1440 - duration]` before the next iteration; if both
nearest candidates are out of bounds the search reports failure. -/
def placeAmendedLoop (events : List PBlock) (excluded : List Nat)
    (duration direction : Int) : Nat → Int → Option Int
  | 0, _ => none
  | fuel + 1, candidate =>
    match firstConflict events excluded candidate duration with
    | none => some candidate
    | some conflict =>
      let next? : Option Int :=
        if 0 < direction then some conflict.end_min
        else if direction < 0 then some (conflict.start_min - duration)
        else
          let fwd := conflict.end_min
          let bwd := conflict.start_min - duration
          let fwdOk := 0 ≤ fwd ∧ fwd ≤ dayMinutes - duration
          let bwdOk := 0 ≤ bwd ∧ bwd ≤ dayMinutes - duration
          if fwdOk ∧ bwdOk then
            some (if |fwd - candidate| < |bwd - candidate| then fwd else bwd)
          else if fwdOk then some fwd
          else if bwdOk then some bwd
          else none
      match next? with
      | none => none
      | some nxt =>
        placeAmendedLoop events excluded duration direction fuel
          (clampDay duration nxt)

/-- The amended claim's placement function: effective duration at least 1,
initial clamp into `[0, 1440 - duration]`, at most `N + 1` steps. -/
def placeAmended (events : List PBlock) (excluded : List Nat)
    (start duration direction : Int) : Option Int :=
  let duration := max 1 duration
  placeAmendedLoop events excluded duration direction (events.length + 1)
    (clampDay duration start)

/-- The original claim's description of the search, written from the
claim's words: in the nearest case both candidates are computed, any that
falls outside `[0, 1440 - duration]` or still causes overlap is
discarded, and the survivor with smaller absolute distance to the
original request is chosen, ties favoring forward. -/
def placeClaimedLoop (events : List PBlock) (excluded : List Nat)
    (duration direction origReq : Int) : Nat → Int → Option Int
  | 0, _ => none
  | fuel + 1, candidate =>
    match firstConflict events excluded candidate duration with
    | none => some candidate
    | some conflict =>
      let next? : Option Int :=
        if 0 < direction then some conflict.end_min
        else if direction < 0 then some (conflict.start_min - duration)
        else
          let fwd := conflict.end_min
          let bwd := conflict.start_min - duration
          let fwdOk := 0 ≤ fwd ∧ fwd ≤ dayMinutes - duration ∧
            (firstConflict events excluded fwd duration) = none
          let bwdOk := 0 ≤ bwd ∧ bwd ≤ dayMinutes - duration ∧
            (firstConflict events excluded bwd duration) = none
          if fwdOk ∧ bwdOk then
            some (if |bwd - origReq| < |fwd - origReq| then bwd else fwd)
          else if fwdOk then some fwd
          else if bwdOk then some bwd
          else none
      match next? with
      | none => none
      | some nxt => placeClaimedLoop events excluded duration direction origReq fuel nxt

/-- The original claim's placement function. -/
def placeClaimed (events : List PBlock) (excluded : List Nat)
    (start duration direction : Int) : Option Int :=
  placeClaimedLoop events excluded duration direction start (events.length + 1)
    (clampDay duration start)

/-! ## C1: smart-scale resize (`EventWidget._smart_scale_resize_bottom`,
src/ical.py:1630)

```python
def _smart_scale_resize_bottom(self, minute_at_cursor):
    chunk = self._base_chunk()
    minute_at_cursor = max(self._orig_start + chunk, min(minute_at_cursor, 24 * 60))
    delta = minute_at_cursor - self._orig_end
    steps = int(delta // chunk)
    target_duration = max(chunk, self._orig_duration + steps * chunk)
    max_duration = max(chunk, ((24 * 60 - self._orig_start) // chunk) * chunk or chunk)
    target_duration = max(chunk, min(target_duration, max_duration))
    duration = target_duration
    direction = 1 if duration >= self._orig_duration else -1
    attempts = 0
    while attempts < 1000:
        duration = max(chunk, min(duration, max_duration))
        new_end = self._orig_start + duration
        if new_end > 24 * 60:
            duration -= chunk; attempts += 1; continue
        if not self.day_view.overlaps_range(self._orig_start, new_end, exclude=self):
            break
        duration -= chunk if direction >= 0 else -chunk
        if duration < chunk:
            duration = chunk; break
        attempts += 1
    self.start_min = self._orig_start
    self.end_min = min(24 * 60, self._orig_start + duration)
```

`others` below is the widget list with the resized widget itself removed
(the `exclude=self` filtering of `overlaps_range`). -/

/-- The `while attempts < 1000` walk; fuel is the remaining attempt
budget, and the value passed at fuel 0 is the duration left by the last
attempt, exactly what Python's loop exit leaves in `duration`. -/
def smartScaleLoop (others : List Iv) (origStart chunk maxDuration direction : Int) :
    Nat → Int → Int
  | 0, duration => duration
  | fuel + 1, duration =>
    let d := max chunk (min duration maxDuration)
    let newEnd := origStart + d
    if dayMinutes < newEnd then
      smartScaleLoop others origStart chunk maxDuration direction fuel (d - chunk)
    else if !overlaps_range others origStart newEnd then d
    else
      let d2 := if 0 ≤ direction then d - chunk else d + chunk
      if d2 < chunk then chunk
      else smartScaleLoop others origStart chunk maxDuration direction fuel d2

/-- `EventWidget._smart_scale_resize_bottom`: returns the
`(start_min, end_min)` the widget is left with.  `timeSize` is
`day_view.time_size_minutes` (so `chunk = max 1 timeSize`,
`_base_chunk`); `origStart`, `origEnd` are the values captured at
gesture start. -/
def smart_scale_resize_bottom (others : List Iv) (origStart origEnd timeSize
    minuteAtCursor : Int) : Int × Int :=
  let chunk := max 1 timeSize
  let origDuration := max 1 (origEnd - origStart)
  let cursor := max (origStart + chunk) (min minuteAtCursor dayMinutes)
  let delta := cursor - origEnd
  let steps := delta / chunk
  let target0 := max chunk (origDuration + steps * chunk)
  -- `((24 * 60 - orig_start) // chunk) * chunk or chunk`: Python's `or`
  -- replaces a zero left operand by `chunk`.
  let md0 := ((dayMinutes - origStart) / chunk) * chunk
  let maxDuration := max chunk (if md0 = 0 then chunk else md0)
  let target := max chunk (min target0 maxDuration)
  let direction : Int := if origDuration ≤ target then 1 else -1
  let duration := smartScaleLoop others origStart chunk maxDuration direction 1000 target
  (origStart, min dayMinutes (origStart + duration))

/-! ## C3 / C10: group move (`DayView._start_group_move`,
`DayView._update_group_move`, src/ical.py:1236 and 1262)

The gesture state holds, for every selected widget, the position captured
at gesture start (`_group_move_refs`), the widgets' current positions,
the set of non-selected intervals (everything `overlaps_range` still sees
through `exclude_set=self._group_move_selected`), and
`_group_move_last_delta`. -/

/-- A selected member: `(identity, start_min, end_min)`. -/
abbrev Member := Nat × Int × Int

/-- The live group-move gesture state. -/
structure GroupMove where
  /-- `_group_move_refs`: positions captured at gesture start. -/
  refs : List Member
  /-- current `start_min` / `end_min` of each selected widget. -/
  members : List Member
  /-- intervals of the widgets not in the selection. -/
  others : List Iv
  /-- `_group_move_last_delta`. -/
  lastDelta : Int
deriving DecidableEq

/-- Shift one member by a minute delta. -/
def shiftMember (delta : Int) (m : Member) : Member :=
  (m.1, m.2.1 + delta, m.2.2 + delta)

/-- `DayView._update_group_move`, taking the already-snapped minute delta
(`delta_minutes = self.snap_delta(raw_minutes)` in the source).  The
Python code returns early — leaving every widget at its current
position — if the delta is unchanged, if any shifted member leaves
`[0, 1440]`, or if any shifted member overlaps a non-selected interval;
otherwise it writes every shifted position and stores the delta. -/
def update_group_move (g : GroupMove) (deltaMinutes : Int) : GroupMove :=
  if deltaMinutes = g.lastDelta then g
  else
    let newPositions := g.refs.map (shiftMember deltaMinutes)
    if newPositions.any (fun p => p.2.1 < 0 ∨ dayMinutes < p.2.2) then g
    else if newPositions.any (fun p => overlaps_range g.others p.2.1 p.2.2) then g
    else { g with members := newPositions, lastDelta := deltaMinutes }

/-! ## Blocks, deletion and history (C4, C5, C6, C8)

`EventWidget` state relevant to deletion and history; `from_rule`
widgets delegate deletion to the owner's rule machinery, which is outside
the embedded store. -/

/-- A stored block as seen by deletion and the history log. -/
structure Block where
  id : Nat
  start_min : Int
  end_min : Int
  locked : Bool
  from_rule : Bool
deriving DecidableEq

/-- The main-window state the history claims are about: the current day's
store (`events_by_date[current]`, snapshotted by `_history_snapshot`),
the history log `_history` (each entry reduced to its `events` payload,
the only field `_record_history` compares), the cursor `_history_index`
(a Python int, `-1` when empty), and `_pending_history_action`. -/
structure DayState where
  blocks : List Block
  history : List (List Block)
  index : Int
  pending : Option String
deriving DecidableEq

/-- `_history_max = 11  # baseline + 10 actions` (src/ical.py:2164). -/
def historyMax : Nat := 11

/-- `MainWindow._record_history` (src/ical.py:2970).  The pending action
label is consumed before the identical-snapshot check; if the snapshot
equals the entry at the cursor nothing else changes; otherwise entries
past the cursor are dropped, the snapshot is appended, the cursor
advances, and the front is trimmed when the log exceeds `historyMax`.
(For a cursor outside `[0, len)` with a nonempty log Python would raise
on the indexing; every reachable state keeps the cursor in range.) -/
def record_history (s : DayState) : DayState :=
  let snap := s.blocks
  if 0 ≤ s.index ∧ s.history[s.index.toNat]? = some snap then
    { s with pending := none }
  else
    let hist1 := if s.index < (s.history.length : Int) - 1
                 then s.history.take (s.index.toNat + 1)
                 else s.history
    let hist2 := hist1 ++ [snap]
    let idx2 := s.index + 1
    if (historyMax : Int) < (hist2.length : Int) then
      let excess := hist2.length - historyMax
      { blocks := s.blocks, history := hist2.drop excess,
        index := max 0 (idx2 - (excess : Int)), pending := none }
    else
      { blocks := s.blocks, history := hist2, index := idx2, pending := none }

/-- `MainWindow.perform_undo` (src/ical.py:2501): no-op when the cursor
is at the first entry (or the log is empty); otherwise decrement the
cursor and apply that snapshot to the store, recording nothing
(`_history_freeze` suppresses `_record_history` during the apply). -/
def perform_undo (s : DayState) : DayState :=
  if s.index ≤ 0 ∨ s.history = [] then s
  else
    { blocks := s.history.getD (s.index - 1).toNat [],
      history := s.history, index := s.index - 1, pending := none }

/-- `MainWindow.perform_redo` (src/ical.py:2514): no-op at the last entry
(or empty log); otherwise increment the cursor and apply. -/
def perform_redo (s : DayState) : DayState :=
  if s.history = [] ∨ (s.history.length : Int) - 1 ≤ s.index then s
  else
    { blocks := s.history.getD (s.index + 1).toNat [],
      history := s.history, index := s.index + 1, pending := none }

/-- `MainWindow.restore_history_entry` (src/ical.py:2486): for an index
inside the log, apply that snapshot and move the cursor there, touching
no entries; out-of-range indices only produce a status message. -/
def restore_history_entry (s : DayState) (i : Int) : DayState :=
  if 0 ≤ i ∧ i < (s.history.length : Int) then
    { blocks := s.history.getD i.toNat [],
      history := s.history, index := i, pending := none }
  else s

/-- `DayView.note_history_action` → `MainWindow.note_history_action`:
stores a pending label (nonempty labels only). -/
def note_history_action (s : DayState) (action : String) : DayState :=
  if action = "" then s else { s with pending := some action }

/-- `DayView.delete_block` (src/ical.py:1150), with the store-and-history
effects made explicit: a locked block only flashes a warning; otherwise
the pending label is set, the block is removed, and the resulting day is
saved, which records a history entry (`on_block_changed` →
`owner.on_day_changed` → `_record_history`).  Returns the new state and
whether the locked warning fired.  (Selection pruning and image cleanup
are display-side effects outside the embedded state.) -/
def delete_block (s : DayState) (b : Block) : DayState × Bool :=
  if b ∈ s.blocks then
    if b.locked then (s, true)
    else
      let s1 := note_history_action s "Delete block"
      let s2 := { s1 with blocks := s1.blocks.erase b }
      (record_history s2, false)
  else (s, false)

/-- `DayView.delete_selected_blocks` (src/ical.py:1328): a no-op for an
empty selection; the pending label is set before the lock check; a
selection containing any locked member only flashes a warning; otherwise
each non-rule member is deleted through `delete_block` (rule members are
forwarded to the owner's rule machinery, outside the embedded store). -/
def delete_selected_blocks (s : DayState) (selected : List Block) :
    DayState × Bool :=
  if selected = [] then (s, false)
  else
    let s1 := note_history_action s "Delete selection"
    if selected.any (·.locked) then (s1, true)
    else
      ((selected.filter (fun b => !b.from_rule)).foldl
        (fun acc b => (delete_block acc b).1) s1, false)

/-- `DayView._start_group_move` (src/ical.py:1236) as the construction of
the gesture state: fails (returns `none`, no gesture begins, no widget
moves) for an empty selection or any locked member; otherwise captures
every member's current position as refs with `last_delta = 0`. -/
def start_group_move (selected : List Block) (others : List Iv) :
    Option GroupMove :=
  if selected = [] then none
  else if selected.any (·.locked) then none
  else
    let refs := selected.map (fun b => (b.id, b.start_min, b.end_min))
    some { refs := refs, members := refs, others := others, lastDelta := 0 }

/-! ## Helper lemmas and theorems -/

/-- A speculative group-move delta fails validation: some shifted member
leaves `[0, 1440]`, or some shifted member overlaps a non-selected
interval. -/
def groupMoveViolation (g : GroupMove) (delta : Int) : Prop :=
  (g.refs.map (shiftMember delta)).any
      (fun p => decide (p.2.1 < 0 ∨ dayMinutes < p.2.2)) = true ∨
  (g.refs.map (shiftMember delta)).any
      (fun p => overlaps_range g.others p.2.1 p.2.2) = true

instance (g : GroupMove) (delta : Int) : Decidable (groupMoveViolation g delta) := by
  unfold groupMoveViolation; infer_instance

/-- The store of Scenario 4: selection `{A(480,510), B(540,570)}` at
gesture start, an unselected interval `(555,585)`, no delta applied yet. -/
def scenario4 : GroupMove :=
  { refs := [(0, 480, 510), (1, 540, 570)],
    members := [(0, 480, 510), (1, 540, 570)],
    others := [(555, 585)],
    lastDelta := 0 }

/-- A group-move state whose +15 step passes validation, used to witness
the successful-update claims. -/
def groupMoveOk : GroupMove :=
  { refs := [(0, 480, 510), (1, 540, 570)],
    members := [(0, 480, 510), (1, 540, 570)],
    others := [(700, 800)],
    lastDelta := 0 }

/-- C9: for arbitrary integer constructor arguments, `EventWidget.__init__`
stores a start clamped into `[0, 1439]` and an end clamped into
`[start + 1, 1440]`, so `0 ≤ start_min < end_min ≤ 1440` always holds. -/
theorem c9_eventWidgetInit_wellformed (start_min end_min : Int) :
    0 ≤ (eventWidgetInit start_min end_min).1 ∧
    (eventWidgetInit start_min end_min).1 ≤ 1439 ∧
    (eventWidgetInit start_min end_min).1 = max 0 (min start_min 1439) ∧
    (eventWidgetInit start_min end_min).2 =
      max ((eventWidgetInit start_min end_min).1 + 1) (min end_min 1440) ∧
    (eventWidgetInit start_min end_min).1 < (eventWidgetInit start_min end_min).2 ∧
    (eventWidgetInit start_min end_min).2 ≤ 1440 := by
  simp only [eventWidgetInit, dayMinutes]
  norm_num
  omega

/-- C1: the smart-scale resize can commit an overlapping store, violating
the no-overlap invariant the claim states.  With the resized block
captured at `(480, 490)`, a chunk (time size) of 30 minutes, and another
stored block at `(490, 520)`, dragging the bottom handle to minute 520
leaves the resized block at `(480, 510)`, which overlaps `(490, 520)`;
the release path (`mouseReleaseEvent` → `on_block_changed`) commits and
records this state without re-validation. -/
theorem c1_smart_scale_commits_overlap :
    smart_scale_resize_bottom [(490, 520)] 480 490 30 520 = (480, 510) ∧
    overlaps_range [(490, 520)] 480 510 = true ∧
    ivOverlap (480, 510) (490, 520) = true := by decide

/-- C2 (counterexample): with the store holding only `(10, 20)`,
`place(13, 4, nearest)` reaches a tie — forward candidate 20 and backward
candidate 6 are both 7 minutes from the request — and the code returns
the backward candidate 6, while the claim as stated (ties favor forward)
returns 20. -/
theorem c2_counterexample_nearest_tie :
    clamp_start_to_available [⟨0, 10, 20⟩] [] 13 4 0 = some 6 ∧
    placeClaimed [⟨0, 10, 20⟩] [] 13 4 0 = some 20 := by decide

/-- The search loop of `clamp_start_to_available` computes exactly the
amended step description, for any positive duration. -/
theorem clampLoop_eq_amendedLoop (events : List PBlock) (excluded : List Nat)
    (duration direction : Int) (hdur : 1 ≤ duration) :
    ∀ fuel start, clampLoop events excluded duration direction fuel start =
      placeAmendedLoop events excluded duration direction fuel start := by
  intro fuel
  induction fuel with
  | zero => intro start; rfl
  | succ n ih =>
    intro start
    show clampLoop _ _ _ _ (n + 1) start = placeAmendedLoop _ _ _ _ (n + 1) start
    unfold clampLoop placeAmendedLoop
    cases hc : firstConflict events excluded start duration with
    | none => simp
    | some conflict =>
      have hlt : conflict.start_min < conflict.end_min := by
        have hp := List.find?_some hc
        simp only [Bool.and_eq_true, decide_eq_true_eq] at hp
        omega
      have hbf : conflict.start_min - duration < conflict.end_min := by omega
      simp only
      by_cases h1 : 0 < direction
      · simp [h1, ih]
      · by_cases h2 : direction < 0
        · simp [h1, h2, ih]
        · simp only [if_neg h1, if_neg h2]
          by_cases hf : 0 ≤ conflict.end_min ∧
              conflict.end_min ≤ dayMinutes - duration
          · by_cases hb : 0 ≤ conflict.start_min - duration ∧
                conflict.start_min - duration ≤ dayMinutes - duration
            · simp only [if_pos hf, if_pos hb, if_pos (And.intro hf hb),
                List.singleton_append, List.foldl_cons, List.foldl_nil]
              rcases lt_trichotomy (|conflict.end_min - start|)
                  (|conflict.start_min - duration - start|) with h3 | h3 | h3
              · rw [if_neg (by omega), if_pos h3, ih]
              · rw [if_pos (by omega), if_neg (by omega), ih]
              · rw [if_pos (by omega), if_neg (by omega), ih]
            · have hcomp : ¬((0 ≤ conflict.end_min ∧
                  conflict.end_min ≤ dayMinutes - duration) ∧
                  (0 ≤ conflict.start_min - duration ∧
                  conflict.start_min - duration ≤ dayMinutes - duration)) :=
                fun h => hb h.2
              simp only [if_pos hf, if_neg hb, if_neg hcomp, List.append_nil,
                List.foldl_nil, ih]
          · have hcomp : ¬((0 ≤ conflict.end_min ∧
                conflict.end_min ≤ dayMinutes - duration) ∧
                (0 ≤ conflict.start_min - duration ∧
                conflict.start_min - duration ≤ dayMinutes - duration)) :=
              fun h => hf h.1
            by_cases hb : 0 ≤ conflict.start_min - duration ∧
                conflict.start_min - duration ≤ dayMinutes - duration
            · simp only [if_neg hf, if_pos hb, if_neg hcomp, List.nil_append,
                List.foldl_nil, ih]
            · simp only [if_neg hf, if_neg hb, if_neg hcomp, List.append_nil]

/-- C2 (amended): `clamp_start_to_available` clamps the request into
`[0, 1440 - duration]` and iterates at most `N + 1` times, moving forward
to the conflict's end, backward to its start minus the duration, and in
the nearest case keeping the in-bounds candidates (without re-checking
overlap) and choosing the one closer to the current candidate, ties
favoring the backward one; each chosen candidate is re-clamped before the
next iteration; `None` results when both nearest candidates are out of
bounds or the bound is exhausted.  Scenario 2 still holds: with `(480,
510)` stored, `place(490, 30, forward)` resolves to 510. -/
theorem c2_placement_amended :
    (∀ (events : List PBlock) (excluded : List Nat) (start duration direction : Int),
      clamp_start_to_available events excluded start duration direction =
        placeAmended events excluded start duration direction) ∧
    clamp_start_to_available [⟨0, 480, 510⟩] [] 490 30 1 = some 510 := by
  refine ⟨fun events excluded start duration direction => ?_, by decide⟩
  unfold clamp_start_to_available placeAmended
  exact clampLoop_eq_amendedLoop events excluded (max 1 duration) direction
    (le_max_left 1 duration) (events.length + 1) (clampDay (max 1 duration) start)

/-- C3: a group-move update is all-or-nothing: every update either leaves
all members at their current positions or moves every member by the
uniform delta from its gesture-start position; any bounds or overlap
violation discards the whole delta; and in Scenario 4 the +15 delta that
would push B into the unselected `(555, 585)` leaves A and B (and the
whole gesture state) unchanged. -/
theorem c3_group_move_all_or_nothing :
    (∀ (g : GroupMove) (delta : Int),
      (update_group_move g delta).members = g.members ∨
      (update_group_move g delta).members = g.refs.map (shiftMember delta)) ∧
    (∀ (g : GroupMove) (delta : Int),
      groupMoveViolation g delta → update_group_move g delta = g) ∧
    update_group_move scenario4 15 = scenario4 := by
  refine ⟨fun g delta => ?_, fun g delta hviol => ?_, by decide⟩
  · unfold update_group_move
    dsimp only
    split
    · exact Or.inl rfl
    · split
      · exact Or.inl rfl
      · split
        · exact Or.inl rfl
        · exact Or.inr rfl
  · unfold update_group_move
    dsimp only
    unfold groupMoveViolation at hviol
    by_cases h0 : delta = g.lastDelta
    · rw [if_pos h0]
    · rw [if_neg h0]
      rcases hviol with hv | hv
      · rw [if_pos hv]
      · rw [if_pos hv, ite_self]

/-- C3 witness: the all-or-nothing abort applied to Scenario 4. -/
theorem c3_group_move_all_or_nothing_witness :
    update_group_move scenario4 15 = scenario4 :=
  c3_group_move_all_or_nothing.2.1 scenario4 15 (by decide)

/-- C10: a group-move update never repositions a non-selected interval,
and a successful update shifts every member by the same delta from its
gesture-start position, preserving each member's duration and all
pairwise gaps between members. -/
theorem c10_group_move_frame :
    (∀ (g : GroupMove) (delta : Int),
      (update_group_move g delta).others = g.others) ∧
    (∀ (g : GroupMove) (delta : Int), delta ≠ g.lastDelta →
      ¬groupMoveViolation g delta →
      (update_group_move g delta).members = g.refs.map (shiftMember delta) ∧
      (update_group_move g delta).lastDelta = delta ∧
      (∀ m ∈ g.refs, ∃ p ∈ (update_group_move g delta).members,
        p.1 = m.1 ∧ p.2.2 - p.2.1 = m.2.2 - m.2.1) ∧
      (∀ m ∈ g.refs, ∀ m' ∈ g.refs,
        ∃ p ∈ (update_group_move g delta).members,
        ∃ p' ∈ (update_group_move g delta).members,
          p.1 = m.1 ∧ p'.1 = m'.1 ∧ p'.2.1 - p.2.2 = m'.2.1 - m.2.2)) := by
  constructor
  · intro g delta
    unfold update_group_move
    dsimp only
    split
    · rfl
    · split
      · rfl
      · split
        · rfl
        · rfl
  · intro g delta hne hviol
    unfold groupMoveViolation at hviol
    rw [not_or] at hviol
    have heq : update_group_move g delta =
        { g with members := g.refs.map (shiftMember delta), lastDelta := delta } := by
      unfold update_group_move
      dsimp only
      rw [if_neg hne, if_neg hviol.1, if_neg hviol.2]
    refine ⟨by rw [heq], by rw [heq], fun m hm => ?_, fun m hm m' hm' => ?_⟩
    · exact ⟨shiftMember delta m, by rw [heq]; exact List.mem_map_of_mem _ hm,
        rfl, by simp [shiftMember]⟩
    · exact ⟨shiftMember delta m, by rw [heq]; exact List.mem_map_of_mem _ hm,
        shiftMember delta m', by rw [heq]; exact List.mem_map_of_mem _ hm',
        rfl, rfl, by simp [shiftMember]⟩

/-- C10 witness: a concrete successful +15 group move shifts both members
and leaves the unselected interval where it was. -/
theorem c10_group_move_frame_witness :
    (update_group_move groupMoveOk 15).others = groupMoveOk.others ∧
    (update_group_move groupMoveOk 15).members =
      groupMoveOk.refs.map (shiftMember 15) :=
  ⟨c10_group_move_frame.1 groupMoveOk 15,
   (c10_group_move_frame.2 groupMoveOk 15 (by decide) (by decide)).1⟩

/-- Rounding an exact multiple returns its quotient. -/
theorem pyRoundDiv_mul (s den : Int) (h : 0 < den) :
    pyRoundDiv (s * den) den = s := by
  unfold pyRoundDiv
  rw [Int.mul_ediv_cancel _ (ne_of_gt h), Int.mul_emod_left]
  rw [if_pos (by omega : (2 : Int) * 0 < den)]

/-- `pyRoundDiv m den` is a nearest integer to `m / den`: its multiple is
within `den / 2` of `m`, no other multiple is closer, and on an exact tie
the chosen quotient is even. -/
theorem pyRoundDiv_nearest (m den : Int) (h : 0 < den) :
    2 * |m - pyRoundDiv m den * den| ≤ den ∧
    (∀ t : Int, |m - pyRoundDiv m den * den| ≤ |m - t * den|) ∧
    (2 * |m - pyRoundDiv m den * den| = den → pyRoundDiv m den % 2 = 0) := by
  have hq : den * (m / den) + m % den = m := Int.ediv_add_emod m den
  have hr0 : 0 ≤ m % den := Int.emod_nonneg m (ne_of_gt h)
  have hrd : m % den < den := Int.emod_lt_of_pos m h
  set q := m / den with hqdef
  set r := m % den with hrdef
  have eq1 : m - q * den = r := by linear_combination -hq
  have eq2 : m - (q + 1) * den = r - den := by linear_combination -hq
  have hlow : ∀ t : Int, t ≤ q - 1 → r + den ≤ m - t * den := by
    intro t ht
    have h1 : den ≤ (q - t) * den :=
      le_mul_of_one_le_left (le_of_lt h) (by omega)
    have h2 : (q - t) * den = q * den - t * den := sub_mul q t den
    omega
  have hhigh : ∀ t : Int, q + 2 ≤ t → 2 * den - r ≤ t * den - m := by
    intro t ht
    have h1 : 2 * den ≤ (t - q) * den :=
      mul_le_mul_of_nonneg_right (by omega) (le_of_lt h)
    have h2 : (t - q) * den = t * den - q * den := sub_mul t q den
    omega
  unfold pyRoundDiv
  rw [← hqdef, ← hrdef]
  by_cases h1 : 2 * r < den
  · rw [if_pos h1]
    have habs : |m - q * den| = r := by rw [eq1]; exact abs_of_nonneg hr0
    refine ⟨by omega, fun t => ?_, by omega⟩
    rcases lt_trichotomy t q with ht | ht | ht
    · have := hlow t (by omega)
      have := le_abs_self (m - t * den)
      omega
    · rw [ht]
    · rcases eq_or_lt_of_le (by omega : q + 1 ≤ t) with ht2 | ht2
      · rw [← ht2]
        have habs2 : |m - (q + 1) * den| = den - r := by
          rw [eq2, abs_of_nonpos (by omega)]; ring
        omega
      · have := hhigh t (by omega)
        have := neg_le_abs (m - t * den)
        omega
  · rw [if_neg h1]
    by_cases h2 : den < 2 * r
    · rw [if_pos h2]
      have habs : |m - (q + 1) * den| = den - r := by
        rw [eq2, abs_of_nonpos (by omega)]; ring
      refine ⟨by omega, fun t => ?_, by omega⟩
      rcases lt_trichotomy t (q + 1) with ht | ht | ht
      · rcases eq_or_lt_of_le (by omega : t ≤ q) with ht2 | ht2
        · rw [ht2]
          have habs2 : |m - q * den| = r := by rw [eq1]; exact abs_of_nonneg hr0
          omega
        · have := hlow t (by omega)
          have := le_abs_self (m - t * den)
          omega
      · rw [ht]
      · have := hhigh t (by omega)
        have := neg_le_abs (m - t * den)
        omega
    · rw [if_neg h2]
      have htie : 2 * r = den := by omega
      have habsq : |m - q * den| = r := by rw [eq1]; exact abs_of_nonneg hr0
      have habsq1 : |m - (q + 1) * den| = den - r := by
        rw [eq2, abs_of_nonpos (by omega)]; ring
      have hpts : ∀ t : Int, r ≤ |m - t * den| := by
        intro t
        rcases lt_trichotomy t q with ht | ht | ht
        · have := hlow t (by omega)
          have := le_abs_self (m - t * den)
          omega
        · rw [ht]; omega
        · rcases eq_or_lt_of_le (by omega : q + 1 ≤ t) with ht2 | ht2
          · rw [← ht2]; omega
          · have := hhigh t (by omega)
            have := neg_le_abs (m - t * den)
            omega
      by_cases h3 : q % 2 = 0
      · rw [if_pos h3]
        refine ⟨by omega, fun t => ?_, fun _ => h3⟩
        have := hpts t
        omega
      · rw [if_neg h3]
        refine ⟨by omega, fun t => ?_, fun _ => by omega⟩
        have := hpts t
        omega

/-- `snap_minute` with snapping disabled is the clamp to `[0, 1440]`. -/
theorem snap_minute_disabled (ts m : Int) :
    snap_minute false ts m = max 0 (min dayMinutes m) := by
  simp [snap_minute, snap_step]

/-- `snap_minute` with a step of at most one is the clamp to `[0, 1440]`. -/
theorem snap_minute_le_one (ts m : Int) (h : ts ≤ 1) :
    snap_minute true ts m = max 0 (min dayMinutes m) := by
  simp [snap_minute, snap_step, h]

/-- `snap_minute` with a step above one clamps the banker's-rounded
multiple. -/
theorem snap_minute_step (ts m : Int) (h : 1 < ts) :
    snap_minute true ts m = max 0 (min dayMinutes (pyRoundDiv m ts * ts)) := by
  simp [snap_minute, snap_step, show ¬ts ≤ 1 from by omega]

/-- Snapping an exact multiple of the step just clamps it. -/
theorem snap_minute_mul (ts s : Int) (h : 1 < ts) :
    snap_minute true ts (s * ts) = max 0 (min dayMinutes (s * ts)) := by
  rw [snap_minute_step ts (s * ts) h, pyRoundDiv_mul s ts (by omega)]

/-- C7 (counterexample): with snapping enabled and step 10, minute 25 is
a tie between multiples 20 and 30; Python `round` picks the even quotient
and the code returns 20, while the claim's ties-away-from-zero rounding
returns 30. -/
theorem c7_counterexample_tie_even :
    snap_minute true 10 25 = 20 ∧ gridSnapAwaySpec true 10 25 = 30 := by decide

/-- C7 (amended): with snapping disabled the result is the minute clamped
to `[0, 1440]`; with snapping enabled and step > 1 the result is a
nearest multiple of the step clamped to `[0, 1440]`, ties going to the
even quotient (Python banker's rounding); snapping is idempotent whenever
the effective step divides 1440 (in particular for step 1 and every
divisor chunk size), and idempotence genuinely fails for a step that does
not divide 1440, e.g. step 22 at minute 1450. -/
theorem c7_grid_snap_amended :
    (∀ (timeSize minute : Int),
      snap_minute false timeSize minute = max 0 (min dayMinutes minute)) ∧
    (∀ (timeSize minute : Int), 1 < timeSize →
      ∃ p : Int,
        snap_minute true timeSize minute = max 0 (min dayMinutes (p * timeSize)) ∧
        2 * |minute - p * timeSize| ≤ timeSize ∧
        (∀ t : Int, |minute - p * timeSize| ≤ |minute - t * timeSize|) ∧
        (2 * |minute - p * timeSize| = timeSize → p % 2 = 0)) ∧
    (∀ (snapEnabled : Bool) (timeSize minute : Int),
      (1 < timeSize → timeSize ∣ dayMinutes) →
      snap_minute snapEnabled timeSize (snap_minute snapEnabled timeSize minute) =
        snap_minute snapEnabled timeSize minute) ∧
    snap_minute true 22 (snap_minute true 22 1450) ≠ snap_minute true 22 1450 := by
  have hday : dayMinutes = 1440 := by decide
  refine ⟨fun ts m => snap_minute_disabled ts m,
    fun ts m hts => ?_, fun en ts m hdvd => ?_, by decide⟩
  · exact ⟨pyRoundDiv m ts, snap_minute_step ts m hts,
      pyRoundDiv_nearest m ts (by omega)⟩
  · cases en with
    | false =>
      rw [snap_minute_disabled, snap_minute_disabled]
      omega
    | true =>
      by_cases hts : ts ≤ 1
      · rw [snap_minute_le_one ts m hts, snap_minute_le_one ts _ hts]
        omega
      · have hts1 : 1 < ts := by omega
        rw [snap_minute_step ts m hts1]
        set v := pyRoundDiv m ts * ts with hv
        have hzero : snap_minute true ts 0 = 0 := by
          have h0 := snap_minute_mul ts 0 hts1
          rw [zero_mul] at h0
          rw [h0]; omega
        by_cases hv0 : v ≤ 0
        · rw [show max 0 (min dayMinutes v) = 0 by omega]
          exact hzero
        · by_cases hvd : v ≤ dayMinutes
          · rw [show max 0 (min dayMinutes v) = v by omega, hv,
              snap_minute_mul ts (pyRoundDiv m ts) hts1, ← hv,
              show max 0 (min dayMinutes v) = v by omega]
          · obtain ⟨k, hk⟩ := hdvd hts1
            have hk' : dayMinutes = k * ts := by rw [hk]; ring
            rw [show max 0 (min dayMinutes v) = dayMinutes by omega, hk',
              snap_minute_mul ts k hts1, ← hk']
            omega

/-- C7 amended witness: the nearest-multiple characterization and the
idempotence conjunct applied at minute 25 with step 10 (the tie input). -/
theorem c7_grid_snap_amended_witness :
    (∃ p : Int,
      snap_minute true 10 25 = max 0 (min dayMinutes (p * 10)) ∧
      2 * |25 - p * 10| ≤ 10 ∧
      (∀ t : Int, |25 - p * 10| ≤ |25 - t * 10|) ∧
      (2 * |25 - p * 10| = 10 → p % 2 = 0)) ∧
    snap_minute true 10 (snap_minute true 10 25) = snap_minute true 10 25 :=
  ⟨c7_grid_snap_amended.2.1 10 25 (by norm_num),
   c7_grid_snap_amended.2.2.1 true 10 25 (fun _ => by decide)⟩

/-- Invariant of every reachable history state: the cursor is in range
and the log is within its bound. -/
def HistInv (s : DayState) : Prop :=
  0 ≤ s.index ∧ s.index < (s.history.length : Int) ∧
    s.history.length ≤ historyMax

/-- Length of a truncated log with one snapshot appended. -/
theorem length_take_append (l : List (List Block)) (b : List Block) (n : Nat)
    (h : n ≤ l.length) : (l.take n ++ [b]).length = n + 1 := by
  simp [List.length_take]
  omega

/-- `_record_history` never changes the current store. -/
theorem record_history_blocks (s : DayState) :
    (record_history s).blocks = s.blocks := by
  unfold record_history
  dsimp only
  split
  · rfl
  · split <;> split <;> rfl

/-- The identical-snapshot skip of `_record_history`: only the pending
label is consumed. -/
theorem record_history_skip (s : DayState) (h0 : 0 ≤ s.index)
    (hid : s.history[s.index.toNat]? = some s.blocks) :
    record_history s = { s with pending := none } := by
  unfold record_history
  dsimp only
  rw [if_pos ⟨h0, hid⟩]

/-- The append path of `_record_history` in closed form: entries past the
cursor are dropped, the snapshot is appended, the cursor advances, and
the front is trimmed by the excess over `historyMax` with the cursor
pulled back by the same amount. -/
theorem record_history_append (s : DayState) (h0 : 0 ≤ s.index)
    (hlt : s.index < (s.history.length : Int))
    (hid : s.history[s.index.toNat]? ≠ some s.blocks) :
    (record_history s).blocks = s.blocks ∧
    (record_history s).history =
      (s.history.take (s.index.toNat + 1) ++ [s.blocks]).drop
        (s.index.toNat + 2 - historyMax) ∧
    (record_history s).index =
      s.index + 1 - ((s.index.toNat + 2 - historyMax : Nat) : Int) ∧
    (record_history s).pending = none := by
  have hcond : ¬(0 ≤ s.index ∧ s.history[s.index.toNat]? = some s.blocks) :=
    fun h => hid h.2
  have hkl : s.index.toNat + 1 ≤ s.history.length := by omega
  have htake : (if s.index < (s.history.length : Int) - 1
      then s.history.take (s.index.toNat + 1) else s.history) =
      s.history.take (s.index.toNat + 1) := by
    by_cases hc : s.index < (s.history.length : Int) - 1
    · rw [if_pos hc]
    · rw [if_neg hc, List.take_of_length_le (by omega)]
  have hlen := length_take_append s.history s.blocks (s.index.toNat + 1) hkl
  unfold record_history
  dsimp only
  rw [if_neg hcond, htake]
  by_cases hbig : (historyMax : Int) <
      ((s.history.take (s.index.toNat + 1) ++ [s.blocks]).length : Int)
  · rw [if_pos hbig]
    rw [hlen] at hbig
    have hM : historyMax = 11 := rfl
    refine ⟨rfl, by dsimp only; rw [hlen], ?_, rfl⟩
    dsimp only
    rw [hlen]
    omega
  · rw [if_neg hbig]
    rw [hlen] at hbig
    have hM : historyMax = 11 := rfl
    have hz : s.index.toNat + 2 - historyMax = 0 := by omega
    refine ⟨rfl, ?_, ?_, rfl⟩
    · dsimp only
      rw [hz, List.drop_zero]
    · dsimp only
      rw [hz]
      omega

/-- After any in-range `_record_history`, the entry at the cursor is the
snapshot of the current store. -/
theorem record_history_cursor_entry (s : DayState) (h0 : 0 ≤ s.index)
    (hlt : s.index < (s.history.length : Int)) :
    (record_history s).history[(record_history s).index.toNat]? =
      some s.blocks := by
  by_cases hid : s.history[s.index.toNat]? = some s.blocks
  · rw [record_history_skip s h0 hid]
    exact hid
  · obtain ⟨hb, hh, hi, hp⟩ := record_history_append s h0 hlt hid
    rw [hh, hi]
    have hkeq : (s.index + 1 -
        ((s.index.toNat + 2 - historyMax : Nat) : Int)).toNat =
        s.index.toNat + 1 - (s.index.toNat + 2 - historyMax) := by
      unfold historyMax
      omega
    rw [hkeq, List.getElem?_drop]
    have harg : s.index.toNat + 2 - historyMax +
        (s.index.toNat + 1 - (s.index.toNat + 2 - historyMax)) =
        s.index.toNat + 1 := by
      unfold historyMax
      omega
    rw [harg]
    have hlen2 : (s.history.take (s.index.toNat + 1)).length =
        s.index.toNat + 1 := by
      simp [List.length_take]
      omega
    rw [List.getElem?_append_right hlen2.le, hlen2]
    simp

/-- `_record_history` preserves the reachable-state invariant. -/
theorem record_history_inv (s : DayState) (hInv : HistInv s) :
    HistInv (record_history s) := by
  obtain ⟨h0, hlt, hmax⟩ := hInv
  by_cases hid : s.history[s.index.toNat]? = some s.blocks
  · rw [record_history_skip s h0 hid]
    exact ⟨h0, hlt, hmax⟩
  · obtain ⟨hb, hh, hi, hp⟩ := record_history_append s h0 hlt hid
    have hkl : s.index.toNat + 1 ≤ s.history.length := by omega
    have hlen := length_take_append s.history s.blocks (s.index.toNat + 1) hkl
    refine ⟨?_, ?_, ?_⟩
    · rw [hi]
      unfold historyMax
      omega
    · rw [hi, hh, List.length_drop, hlen]
      unfold historyMax
      omega
    · rw [hh, List.length_drop, hlen]
      unfold historyMax
      omega

/-- C4: recording a history entry skips identical snapshots, and
otherwise truncates after the cursor, appends, advances the cursor, and
trims the front by the excess over the 11-entry bound, pulling the cursor
back by the trimmed count; the entry at the new cursor is the recorded
snapshot and the log stays within its bound. -/
theorem c4_record_history_spec (s : DayState) (hInv : HistInv s) :
    (s.history[s.index.toNat]? = some s.blocks →
      record_history s = { s with pending := none }) ∧
    (s.history[s.index.toNat]? ≠ some s.blocks →
      (record_history s).history =
        (s.history.take (s.index.toNat + 1) ++ [s.blocks]).drop
          (s.index.toNat + 2 - historyMax) ∧
      (record_history s).index =
        s.index + 1 - ((s.index.toNat + 2 - historyMax : Nat) : Int) ∧
      (record_history s).history[(record_history s).index.toNat]? =
        some s.blocks ∧
      (record_history s).history.length ≤ historyMax) := by
  obtain ⟨h0, hlt, hmax⟩ := hInv
  refine ⟨record_history_skip s h0, fun hid => ?_⟩
  obtain ⟨hb, hh, hi, hp⟩ := record_history_append s h0 hlt hid
  exact ⟨hh, hi, record_history_cursor_entry s h0 hlt,
    (record_history_inv s ⟨h0, hlt, hmax⟩).2.2⟩

/-- A concrete one-entry history state used by the history witnesses. -/
def histBlock : Block := ⟨1, 480, 510, false, false⟩

/-- A reachable state whose cursor entry equals the current store. -/
def histState0 : DayState :=
  ⟨[histBlock], [[histBlock]], 0, some "Add block"⟩

/-- C4 witness: recording over an identical cursor snapshot only consumes
the pending label. -/
theorem c4_record_history_spec_witness :
    record_history histState0 = { histState0 with pending := none } :=
  (c4_record_history_spec histState0
    ⟨by decide, by decide, by decide⟩).1 (by decide)

/-- `perform_undo` away from the first entry: decrement the cursor and
apply that snapshot, clearing the pending label and recording nothing. -/
theorem perform_undo_spec (s : DayState) (h1 : 0 < s.index) (h2 : s.history ≠ []) :
    perform_undo s =
    { blocks := s.history.getD (s.index - 1).toNat [],
      history := s.history, index := s.index - 1, pending := none } := by
  unfold perform_undo
  rw [if_neg (by push_neg; exact ⟨by omega, h2⟩)]

/-- `perform_redo` away from the last entry: increment the cursor and
apply that snapshot. -/
theorem perform_redo_spec (s : DayState) (h1 : s.history ≠ [])
    (h2 : s.index < (s.history.length : Int) - 1) :
    perform_redo s =
    { blocks := s.history.getD (s.index + 1).toNat [],
      history := s.history, index := s.index + 1, pending := none } := by
  unfold perform_redo
  rw [if_neg (by push_neg; exact ⟨h1, by omega⟩)]

/-- C5: undo is a no-op at the first entry and otherwise decrements the
cursor and applies that snapshot without recording; redo is a no-op at
the last entry; and the round trip holds: record, mutate, record, then
undo restores the pre-mutation store and redo restores the mutated
store. -/
theorem c5_undo_redo_round_trip :
    (∀ s : DayState, s.index ≤ 0 ∨ s.history = [] → perform_undo s = s) ∧
    (∀ s : DayState, 0 < s.index → s.history ≠ [] →
      (perform_undo s).history = s.history ∧
      (perform_undo s).index = s.index - 1 ∧
      (perform_undo s).pending = none ∧
      (perform_undo s).blocks = s.history.getD (s.index - 1).toNat []) ∧
    (∀ s : DayState, s.history = [] ∨ (s.history.length : Int) - 1 ≤ s.index →
      perform_redo s = s) ∧
    (∀ (s : DayState) (nb : List Block), HistInv s → nb ≠ s.blocks →
      (perform_undo (record_history
        { record_history s with blocks := nb })).blocks = s.blocks ∧
      (perform_redo (perform_undo (record_history
        { record_history s with blocks := nb }))).blocks = nb) := by
  refine ⟨fun s h => ?_, fun s h1 h2 => ?_, fun s h => ?_, fun s nb hInv hne => ?_⟩
  · unfold perform_undo
    rw [if_pos h]
  · rw [perform_undo_spec s h1 h2]
    exact ⟨rfl, rfl, rfl, rfl⟩
  · unfold perform_redo
    rw [if_pos h]
  · obtain ⟨h0, hlt, hmax⟩ := hInv
    have hM : historyMax = 11 := rfl
    have hInv1 : HistInv (record_history s) := record_history_inv s ⟨h0, hlt, hmax⟩
    obtain ⟨h0', hlt', hmax'⟩ := hInv1
    have he1 : (record_history s).history[(record_history s).index.toNat]? =
        some s.blocks := record_history_cursor_entry s h0 hlt
    have hid' : ({ record_history s with blocks := nb } : DayState).history[
        ({ record_history s with blocks := nb } : DayState).index.toNat]? ≠
        some ({ record_history s with blocks := nb } : DayState).blocks := by
      dsimp only
      rw [he1]
      intro hcon
      exact hne (Option.some.inj hcon).symm
    obtain ⟨hb2, hh2, hi2, hp2⟩ := record_history_append
      { record_history s with blocks := nb } h0' hlt' hid'
    dsimp only at hb2 hh2 hi2 hp2
    set s1 := record_history s with hs1
    set s2 := record_history { s1 with blocks := nb } with hs2
    have hk1 : s1.index.toNat + 1 ≤ s1.history.length := by omega
    have hlen1 := length_take_append s1.history nb (s1.index.toNat + 1) hk1
    have hlen2 : s2.history.length =
        s1.index.toNat + 2 - (s1.index.toNat + 2 - historyMax) := by
      rw [hh2, List.length_drop, hlen1]
    have hidx2 : 1 ≤ s2.index := by rw [hi2]; omega
    have hne2 : s2.history ≠ [] :=
      List.ne_nil_of_length_pos (by omega)
    have hu := perform_undo_spec s2 (by omega) hne2
    have htn : (s2.index - 1).toNat =
        s1.index.toNat - (s1.index.toNat + 2 - historyMax) := by
      rw [hi2]; omega
    have hentry : s2.history[(s2.index - 1).toNat]? = some s.blocks := by
      rw [htn, hh2, List.getElem?_drop]
      rw [show s1.index.toNat + 2 - historyMax +
        (s1.index.toNat - (s1.index.toNat + 2 - historyMax)) = s1.index.toNat
        from by omega]
      have hlt1 : s1.index.toNat < (s1.history.take (s1.index.toNat + 1)).length := by
        simp [List.length_take]; omega
      rw [List.getElem?_append_left hlt1,
        List.getElem?_take_of_lt
          (by omega : s1.index.toNat < s1.index.toNat + 1)]
      exact he1
    have hundo_blocks : (perform_undo s2).blocks = s.blocks := by
      rw [hu]
      dsimp only
      rw [List.getD_eq_getElem?_getD, hentry]
      rfl
    refine ⟨hundo_blocks, ?_⟩
    have hentry2 : s2.history[s2.index.toNat]? = some nb := by
      have := record_history_cursor_entry { s1 with blocks := nb } h0' hlt'
      dsimp only at this
      exact this
    have hredo := perform_redo_spec (perform_undo s2)
      (by rw [hu]; exact hne2)
      (by rw [hu]; dsimp only; rw [hlen2, hi2]; omega)
    rw [hredo, hu]
    dsimp only
    rw [show s2.index - 1 + 1 = s2.index from by omega,
      List.getD_eq_getElem?_getD, hentry2]
    rfl

/-- A two-entry history state used by the restore and undo witnesses. -/
def histState2 : DayState :=
  ⟨[histBlock], [[], [histBlock]], 1, none⟩

/-- C5 witness: the record–mutate–record–undo–redo round trip at a
concrete one-entry state, mutating the store to empty. -/
theorem c5_undo_redo_round_trip_witness :
    (perform_undo (record_history
      { record_history histState0 with blocks := ([] : List Block) })).blocks =
      histState0.blocks ∧
    (perform_redo (perform_undo (record_history
      { record_history histState0 with blocks := ([] : List Block) }))).blocks =
      ([] : List Block) :=
  c5_undo_redo_round_trip.2.2.2 histState0 []
    ⟨by decide, by decide, by decide⟩ (by decide)

/-- C6: jump-to-entry restore applies the snapshot at the index and moves
the cursor there while leaving the whole log untouched (so every entry
after the restored index survives); only a subsequent recorded action
with a different snapshot truncates after the new cursor, appending to
the first `index + 1` entries. -/
theorem c6_restore_at (s : DayState) (i : Int) (h0 : 0 ≤ i)
    (hlt : i < (s.history.length : Int)) :
    (restore_history_entry s i).history = s.history ∧
    (restore_history_entry s i).index = i ∧
    (restore_history_entry s i).blocks = s.history.getD i.toNat [] ∧
    (∀ nb : List Block, s.history[i.toNat]? ≠ some nb →
      i.toNat + 2 ≤ historyMax →
      (record_history { restore_history_entry s i with blocks := nb }).history =
        s.history.take (i.toNat + 1) ++ [nb] ∧
      (record_history { restore_history_entry s i with blocks := nb }).index =
        i + 1) := by
  have hres : restore_history_entry s i =
      { blocks := s.history.getD i.toNat [],
        history := s.history, index := i, pending := none } := by
    unfold restore_history_entry
    rw [if_pos ⟨h0, hlt⟩]
  refine ⟨by rw [hres], by rw [hres], by rw [hres], fun nb hnb hsmall => ?_⟩
  have ht : ({ restore_history_entry s i with blocks := nb } : DayState) =
      { blocks := nb, history := s.history, index := i, pending := none } := by
    rw [hres]
  rw [ht]
  obtain ⟨hb2, hh2, hi2, hp2⟩ := record_history_append
    ⟨nb, s.history, i, none⟩ h0 hlt hnb
  dsimp only at hb2 hh2 hi2
  have hz : i.toNat + 2 - historyMax = 0 := by omega
  rw [hz] at hh2 hi2
  rw [List.drop_zero] at hh2
  refine ⟨hh2, ?_⟩
  rw [hi2]
  omega

/-- C6 witness: restoring entry 0 of a two-entry log keeps both entries,
and a following record with a new snapshot truncates after entry 0. -/
theorem c6_restore_at_witness :
    (restore_history_entry histState2 0).history = histState2.history ∧
    (record_history { restore_history_entry histState2 0 with
        blocks := [histBlock] }).history =
      histState2.history.take 1 ++ [[histBlock]] :=
  ⟨(c6_restore_at histState2 0 (by decide) (by decide)).1,
   ((c6_restore_at histState2 0 (by decide) (by decide)).2.2.2 [histBlock]
     (by decide) (by decide)).1⟩

/-- C8: a mutation on a locked interval is rejected at entry with the
store, the history log and the cursor unchanged and a warning status
reported: `delete_block` on a locked block, `delete_selected_blocks` on a
selection with any locked member, and a group move starting on a
selection with any locked member (no gesture begins, so no member can be
moved). -/
theorem c8_locked_rejection :
    (∀ (s : DayState) (b : Block), b ∈ s.blocks → b.locked = true →
      delete_block s b = (s, true)) ∧
    (∀ (s : DayState) (selected : List Block), selected ≠ [] →
      selected.any (·.locked) = true →
      (delete_selected_blocks s selected).1.blocks = s.blocks ∧
      (delete_selected_blocks s selected).1.history = s.history ∧
      (delete_selected_blocks s selected).1.index = s.index ∧
      (delete_selected_blocks s selected).2 = true) ∧
    (∀ (selected : List Block) (others : List Iv),
      selected.any (·.locked) = true →
      start_group_move selected others = none) := by
  refine ⟨fun s b hmem hlock => ?_, fun s selected hne hany => ?_,
    fun selected others hany => ?_⟩
  · unfold delete_block
    rw [if_pos hmem, if_pos hlock]
  · unfold delete_selected_blocks
    rw [if_neg hne]
    dsimp only
    rw [if_pos hany]
    exact ⟨rfl, rfl, rfl, rfl⟩
  · unfold start_group_move
    by_cases hsel : selected = []
    · rw [if_pos hsel]
    · rw [if_neg hsel, if_pos hany]

/-- A locked block and a state holding it, for the lock witnesses. -/
def lockedBlock : Block := ⟨2, 600, 660, true, false⟩

/-- A state whose only block is locked. -/
def lockedState : DayState := ⟨[lockedBlock], [[lockedBlock]], 0, none⟩

/-- C8 witness: deleting the locked block, deleting a selection holding
it, and starting a group move over it are all rejected. -/
theorem c8_locked_rejection_witness :
    delete_block lockedState lockedBlock = (lockedState, true) ∧
    (delete_selected_blocks lockedState [lockedBlock]).1.blocks =
      lockedState.blocks ∧
    start_group_move [lockedBlock] [] = none :=
  ⟨c8_locked_rejection.1 lockedState lockedBlock (by decide) (by decide),
   (c8_locked_rejection.2.1 lockedState [lockedBlock] (by decide) (by decide)).1,
   c8_locked_rejection.2.2 [lockedBlock] [] (by decide)⟩

end ICal
